import Mathlib

/-!
Verification of the binary serialization core of the `mmo` repository: the
`Source`/`Sink` contracts, the chained `Reader` primitives, the versioned
texture header codec (`tex_v1_0`), the deferred-patch saver used by the
texture tool, and the BMP parser of `texture_tool/main.cpp`.

Byte streams are shallowly embedded as `List Nat` (each entry one byte),
machine integers as `Nat` with explicit reductions modulo `2 ^ w` where the
code truncates.  Code present in the sources (`io::StreamSink`,
`mmo::tex::v1_0::loadHeader`, `BmpImageParser::Parse`, the save path of the
texture tool's `main`) is translated directly; the `binary_io` Reader/Writer
primitives and the `v1_0::HeaderSaver`, whose files are not among the provided
sources, are modelled from the specification and marked as such.
-/

namespace Mmo

set_option linter.unusedVariables false

/-! ## Little-endian byte codec -/

/-- Little-endian encoding of the value `v` into exactly `w` bytes
(the canonical byte order fixed for the whole format). -/
def leBytes : (w : Nat) → (v : Nat) → List Nat
  | 0, _ => []
  | w + 1, v => v % 256 :: leBytes w (v / 256)

/-- Little-endian decoding of a byte list. -/
def leDecode : List Nat → Nat
  | [] => 0
  | b :: bs => b + 256 * leDecode bs

/-- Concatenated little-endian encoding of a list of `w`-byte values
(the encoding of a fixed-length homogeneous range). -/
def leList (w : Nat) (vs : List Nat) : List Nat :=
  (vs.map (leBytes w)).flatten

@[simp]
theorem leBytes_length (w v : Nat) : (leBytes w v).length = w := by
  induction w generalizing v with
  | zero => rfl
  | succ w ih => simp [leBytes, ih]

theorem leDecode_leBytes (w v : Nat) : leDecode (leBytes w v) = v % 256 ^ w := by
  induction w generalizing v with
  | zero => simp [leBytes, leDecode, Nat.pow_zero, Nat.mod_one]
  | succ w ih =>
      have h : (256 : Nat) ^ (w + 1) = 256 * 256 ^ w := by ring
      simp only [leBytes, leDecode, ih, h, Nat.mod_mul]

@[simp]
theorem leList_nil (w : Nat) : leList w [] = [] := rfl

theorem leList_cons (w v : Nat) (vs : List Nat) :
    leList w (v :: vs) = leBytes w v ++ leList w vs := by
  simp [leList]

@[simp]
theorem leList_length (w : Nat) (vs : List Nat) :
    (leList w vs).length = w * vs.length := by
  induction vs with
  | nil => simp
  | cons v vs ih => simp [leList_cons, ih]; ring

/-! ## Reader model

The `io::Reader` layer composes a `Source` with typed decode operations; the
`binary_io` headers themselves are not among the provided sources, so the
primitives below are modelled from the specification (§4.2): a read of a
fixed-width field decodes little-endian bytes and advances the cursor; a read
past the end of the source fails without advancing; once the accumulated
success flag is false every further operation is a no-op. -/

/-- The state of a `Source` together with the `Reader`'s accumulated success
flag: the underlying bytes, the current read cursor, and the flag that starts
`true` and becomes permanently `false` on the first failed primitive. -/
structure ReaderState where
  data : List Nat
  pos : Nat
  ok : Bool
deriving DecidableEq

/-- Modelled from the spec: the typed read primitive of `io::read<T>` for a
`w`-byte unsigned field.  No-op returning no value once the success flag is
false; decodes and advances on success; fails (clearing the flag, without
advancing the cursor) when fewer than `w` bytes remain. -/
def readUInt (w : Nat) (s : ReaderState) : ReaderState × Option Nat :=
  if s.ok = false then (s, none)
  else if s.pos + w ≤ s.data.length then
    ({ s with pos := s.pos + w }, some (leDecode ((s.data.drop s.pos).take w)))
  else ({ s with ok := false }, none)

/-- Modelled from the spec: `io::skip<T>` consumes exactly `sizeof(T)` bytes
without materializing a value, failing under the same short-circuit rule. -/
def skipBytes (w : Nat) (s : ReaderState) : ReaderState :=
  (readUInt w s).1

/-- Modelled from the spec: `io::read_range` decodes a fixed,
construction-time count of homogeneous fixed-width elements in sequence,
failing as a unit if any element read fails. -/
def readRange (w : Nat) : (n : Nat) → ReaderState → ReaderState × Option (List Nat)
  | 0, s => (s, some [])
  | n + 1, s =>
      let p := readUInt w s
      let q := readRange w n p.1
      match p.2, q.2 with
      | some v, some vs => (q.1, some (v :: vs))
      | _, _ => (q.1, none)

@[simp]
theorem readUInt_not_ok (w : Nat) (s : ReaderState) (h : s.ok = false) :
    readUInt w s = (s, none) := by
  simp [readUInt, h]

theorem readRange_succ (w n : Nat) (s : ReaderState) :
    readRange w (n + 1) s =
      match (readUInt w s).2, (readRange w n (readUInt w s).1).2 with
      | some v, some vs => ((readRange w n (readUInt w s).1).1, some (v :: vs))
      | _, _ => ((readRange w n (readUInt w s).1).1, none) := rfl

theorem readUInt_success (w : Nat) (s : ReaderState) (hok : s.ok = true)
    (hle : s.pos + w ≤ s.data.length) :
    readUInt w s =
      ({ s with pos := s.pos + w }, some (leDecode ((s.data.drop s.pos).take w))) := by
  simp [readUInt, hok, hle]

theorem readUInt_fail (w : Nat) (s : ReaderState) (hok : s.ok = true)
    (hlt : s.data.length < s.pos + w) :
    readUInt w s = ({ s with ok := false }, none) := by
  simp [readUInt, hok, Nat.not_le.mpr hlt]

theorem readRange_not_ok (w n : Nat) (s : ReaderState) (h : s.ok = false) :
    (readRange w n s).1 = s ∧ (0 < n → (readRange w n s).2 = none) := by
  induction n with
  | zero => simp [readRange]
  | succ n ih =>
      rcases ih with ⟨ih1, ih2⟩
      cases hq : (readRange w n s).2 with
      | none =>
          refine ⟨?_, fun _ => ?_⟩
          · simp [readRange, readUInt_not_ok w s h, hq, ih1]
          · simp [readRange, readUInt_not_ok w s h, hq]
      | some vs =>
          refine ⟨?_, fun _ => ?_⟩
          · simp [readRange, readUInt_not_ok w s h, hq, ih1]
          · simp [readRange, readUInt_not_ok w s h, hq]

theorem readUInt_append (w : Nat) (P Q R : List Nat) (hQ : Q.length = w) :
    readUInt w ⟨P ++ (Q ++ R), P.length, true⟩ =
      (⟨P ++ (Q ++ R), P.length + w, true⟩, some (leDecode Q)) := by
  have hdrop : (P ++ (Q ++ R)).drop P.length = Q ++ R := List.drop_left' rfl
  have htake : (Q ++ R).take w = Q := List.take_left' hQ
  have hle : P.length + w ≤ (P ++ (Q ++ R)).length := by
    simp [List.length_append, hQ]
  rw [readUInt_success w _ rfl hle]
  simp [hdrop, htake]

theorem readRange_append (w : Nat) (vs : List Nat) :
    ∀ (P R : List Nat),
      readRange w vs.length ⟨P ++ (leList w vs ++ R), P.length, true⟩ =
        (⟨P ++ (leList w vs ++ R), P.length + w * vs.length, true⟩,
          some (vs.map (fun v => v % 256 ^ w))) := by
  induction vs with
  | nil => intro P R; simp [readRange]
  | cons v vs ih =>
      intro P R
      have hassoc : P ++ (leList w (v :: vs) ++ R) =
          P ++ (leBytes w v ++ (leList w vs ++ R)) := by
        simp [leList_cons]
      have hassoc2 : P ++ (leBytes w v ++ (leList w vs ++ R)) =
          (P ++ leBytes w v) ++ (leList w vs ++ R) := by
        simp
      have h1 := readUInt_append w P (leBytes w v) (leList w vs ++ R) (leBytes_length w v)
      have h2 := ih (P ++ leBytes w v) R
      simp only [List.length_append, leBytes_length] at h2
      simp only [List.length_cons, readRange, hassoc]
      rw [h1]
      simp only [hassoc2]
      rw [h2]
      simp [leDecode_leBytes, Nat.mul_succ, ← hassoc2, Nat.add_assoc]
      all_goals omega

theorem readUInt_success_at (w : Nat) (d : List Nat) (p : Nat)
    (hle : p + w ≤ d.length) :
    readUInt w ⟨d, p, true⟩ = (⟨d, p + w, true⟩, some (leDecode ((d.drop p).take w))) :=
  readUInt_success w ⟨d, p, true⟩ rfl hle

theorem readRange_success_at (w : Nat) :
    ∀ (n : Nat) (d : List Nat) (p : Nat), p + w * n ≤ d.length →
      readRange w n ⟨d, p, true⟩ =
        (⟨d, p + w * n, true⟩,
          some ((List.range n).map (fun i => leDecode ((d.drop (p + w * i)).take w)))) := by
  intro n
  induction n with
  | zero => intro d p h; simp [readRange]
  | succ n ih =>
      intro d p h
      have h1 : p + w ≤ d.length := by
        have : w * (n + 1) = w * n + w := by ring
        omega
      have h2 : (p + w) + w * n ≤ d.length := by
        have : w * (n + 1) = w * n + w := by ring
        omega
      simp only [readRange, readUInt_success_at w d p h1, ih d (p + w) h2]
      simp [List.range_succ_eq_map, List.map_map, Nat.mul_succ, Function.comp]
      refine ⟨by omega, ?_⟩
      intro i hi
      have harith : p + w + w * i = p + (w * i + w) := by ring
      rw [harith]

theorem readRange_fail_at (w : Nat) :
    ∀ (n : Nat) (s : ReaderState), s.ok = true → 0 < n →
      s.data.length < s.pos + w * n →
      (readRange w n s).1.ok = false ∧ (readRange w n s).2 = none := by
  intro n
  induction n with
  | zero =>
      intro s hok hn hlt
      exact absurd hn (by simp)
  | succ n ih =>
      intro s hok hn hlt
      by_cases hle : s.pos + w ≤ s.data.length
      · cases n with
        | zero =>
            exfalso
            have hm : w * (0 + 1) = w := by ring
            omega
        | succ m =>
            have hrest : s.data.length < (s.pos + w) + w * (m + 1) := by
              have hm : w * (m + 1 + 1) = w + w * (m + 1) := by ring
              omega
            have h1 := readUInt_success w s hok hle
            have h2 := ih { s with pos := s.pos + w } hok (Nat.succ_pos m) hrest
            rcases h2 with ⟨h2a, h2b⟩
            rw [readRange_succ, h1]
            simp only [h2b]
            simp [h2a]
      · have h1 := readUInt_fail w s hok (Nat.not_le.mp hle)
        have h2 := readRange_not_ok w n { s with ok := false } rfl
        rcases h2 with ⟨h2a, h2b⟩
        simp only [readRange, h1]
        cases n with
        | zero => simp [readRange]
        | succ m =>
            have hnone := h2b (Nat.succ_pos m)
            cases hq : (readRange w (m + 1) { s with ok := false }).2 with
            | none => simp [hq, h2a]
            | some vs => rw [hq] at hnone; exact absurd hnone (by simp)

/-! ## The v1.0 texture header codec -/

/-- Modelled from the spec: `FixedMipCount`, the format-wide,
compile-time-fixed maximum mip count (16, matching the 16 candidate mip
levels probed by the save path of `texture_tool/main.cpp`). -/
def fixedMipCount : Nat := 16

/-- The v1.0 texture `Header` record (`tex_v1_0/header.h` as read by
`loadHeader` and written by the texture tool): compression code, `hasMips`
flag, width, height, and the two fixed-length arrays of mipmap offsets and
lengths. -/
structure Header where
  compression : Nat
  hasMips : Nat
  width : Nat
  height : Nat
  mipmapOffsets : List Nat
  mipmapLengths : List Nat
deriving DecidableEq

/-- The byte size of the version-specific header fields decoded by
`loadHeader`: compression (1), hasMips (1), width (2), height (2), and the
two fixed-length 4-byte ranges. -/
def headerFieldsSize : Nat := 1 + 1 + 2 + 2 + 4 * fixedMipCount + 4 * fixedMipCount

/-- `mmo::tex::v1_0::loadHeader` (`tex_v1_0/header_load.cpp`): one chained
Reader expression decoding compression (u8), hasMips (u8), width (u16),
height (u16), the fixed-length mipmap offset range and the fixed-length
mipmap length range, in that order; the returned option is `none` exactly
when the C++ chain reports failure. -/
def loadHeader (s : ReaderState) : ReaderState × Option Header :=
  let p1 := readUInt 1 s
  let p2 := readUInt 1 p1.1
  let p3 := readUInt 2 p2.1
  let p4 := readUInt 2 p3.1
  let p5 := readRange 4 fixedMipCount p4.1
  let p6 := readRange 4 fixedMipCount p5.1
  match p1.2, p2.2, p3.2, p4.2, p5.2, p6.2 with
  | some c, some m, some wd, some ht, some offs, some lens =>
      (p6.1, some { compression := c, hasMips := m, width := wd, height := ht,
                    mipmapOffsets := offs, mipmapLengths := lens })
  | _, _, _, _, _, _ => (p6.1, none)

/-! ## Sink model

`io::StreamSink` is in the sources and is translated directly; the
`std::ostream` it writes to is modelled as the bytes written so far, the put
position (`tellp`), an optional capacity of the underlying medium (`none` for
an unbounded file) and the stream failure state (`badbit`): once the stream
has failed, writes and seeks are ignored, as for a C++ stream. -/

/-- Model of the destination `std::ostream` of a `StreamSink`. -/
structure OStream where
  data : List Nat
  pos : Nat
  cap : Option Nat
  bad : Bool
deriving DecidableEq

/-- Writing `bytes` at position `p` of `data`: overwrites in place, zero-fills
any gap past the current end, extends as needed (binary `fstream`
semantics). -/
def writeAt (data : List Nat) (p : Nat) (bytes : List Nat) : List Nat :=
  data.take p ++ List.replicate (p - data.length) 0 ++ bytes ++ data.drop (p + bytes.length)

/-- `ostream::write`: a no-op once the stream is bad; sets the failure state
when the underlying medium refuses the write (capacity exceeded); otherwise
stores the bytes at the put position and advances it. -/
def OStream.write (o : OStream) (bytes : List Nat) : OStream :=
  if o.bad then o
  else
    match o.cap with
    | some c =>
        if c < o.pos + bytes.length then { o with bad := true }
        else { o with data := writeAt o.data o.pos bytes, pos := o.pos + bytes.length }
    | none => { o with data := writeAt o.data o.pos bytes, pos := o.pos + bytes.length }

/-- `ostream::seekp`: repositions the put cursor; fails (no-op) on a bad
stream. -/
def OStream.seekp (o : OStream) (p : Nat) : OStream :=
  if o.bad then o else { o with pos := p }

/-- `ostream::tellp` as used by `StreamSink` (cast to `size_t`). -/
def OStream.tellp (o : OStream) : Nat := o.pos

namespace StreamSink

/-- `io::StreamSink::write`: forwards to `m_dest.write` and returns `size`
unconditionally (the source marks this `return size;` with a `// hack`
comment). -/
def write (o : OStream) (src : List Nat) : OStream × Nat :=
  (o.write src, src.length)

/-- `io::StreamSink::overwrite`: saves `tellp`, seeks to `position`, delegates
to `write`, seeks back to the saved position, and returns the result of
`write`. -/
def overwrite (o : OStream) (position : Nat) (src : List Nat) : OStream × Nat :=
  let previous := o.tellp
  let o1 := o.seekp position
  let r := write o1 src
  (r.1.seekp previous, r.2)

/-- `io::StreamSink::position`: the current `tellp` of the destination. -/
def position (o : OStream) : Nat := o.tellp

end StreamSink

@[simp]
theorem OStream_write_app (d bytes : List Nat) :
    OStream.write ⟨d, d.length, none, false⟩ bytes =
      ⟨d ++ bytes, d.length + bytes.length, none, false⟩ := by
  simp [OStream.write, writeAt, List.drop_eq_nil_of_le]

theorem StreamSink_overwrite_patch (X Y Z bytes : List Nat) (p : Nat)
    (hlen : Y.length = bytes.length) :
    StreamSink.overwrite ⟨X ++ Y ++ Z, p, none, false⟩ X.length bytes =
      (⟨X ++ bytes ++ Z, p, none, false⟩, bytes.length) := by
  have htake : (X ++ Y ++ Z).take X.length = X := by
    rw [List.append_assoc]
    exact List.take_left' rfl
  have hdrop : (X ++ Y ++ Z).drop (X.length + bytes.length) = Z := by
    have h1 : X.length + bytes.length = (X ++ Y).length := by
      simp [List.length_append, hlen]
    rw [h1]
    exact List.drop_left' rfl
  have hdrop2 : (Y ++ Z).drop bytes.length = Z := by
    rw [← hlen]
    exact List.drop_left' rfl
  have hle : X.length ≤ (X ++ Y ++ Z).length := by
    simp [List.length_append]
  simp [StreamSink.overwrite, StreamSink.write, OStream.seekp, OStream.tellp,
    OStream.write, writeAt, htake, hdrop, hdrop2, Nat.sub_eq_zero_of_le hle]

/-! ## Deferred-patch saver

`tex_v1_0::HeaderSaver` (`header_save.h/.cpp`) and the `tex` pre-header are
not among the provided sources; they are modelled from the specification
(§4.4, §6): the saver writes the pre-header (2-byte magic, 4-byte version)
and the header with the offset/length fields populated as zero placeholders,
recording the absolute sink position at which each placeholder field began;
`finish()` overwrites each recorded field with the now-known value taken from
the header it references, restoring the append cursor afterwards. -/

/-- Modelled from the spec: the 2-byte magic token of the PreHeader; its
concrete value is not shown in the provided sources and does not affect any
property proved here. -/
def texMagic : List Nat := [72, 84]

/-- Modelled from the spec: the version constant selecting the v1.0 header
layout (a 4-byte unsigned value in the stream). -/
def Version_1_0 : Nat := 256

/-- The bytes preceding the placeholder arrays on the save path: magic,
version, compression, hasMips, width, height. -/
def headerFront (h : Header) : List Nat :=
  texMagic ++ leBytes 4 Version_1_0 ++ leBytes 1 h.compression ++ leBytes 1 h.hasMips ++
    leBytes 2 h.width ++ leBytes 2 h.height

/-- The byte size of the full fixed-size header (pre-header plus the v1.0
header fields): 2 + 4 + 1 + 1 + 2 + 2 + 64 + 64 = 140. -/
def headerByteSize : Nat := 2 + 4 + headerFieldsSize

@[simp]
theorem headerFront_length (h : Header) : (headerFront h).length = 12 := by
  simp [headerFront, texMagic]

/-- The in-memory metadata the deferred-patch saver keeps: the absolute sink
positions at which the placeholder offset array and length array began. -/
structure HeaderSaver where
  offsetsPos : Nat
  lengthsPos : Nat
deriving DecidableEq

/-- The zero placeholder written for one fixed-length mip array:
`4 * fixedMipCount` zero bytes. -/
def mipZeros : List Nat := List.replicate (4 * fixedMipCount) 0

@[simp]
theorem mipZeros_length : mipZeros.length = 64 := rfl

/-- Modelled from the spec: constructing `v1_0::HeaderSaver{sink, header}`
writes the pre-header and header with zero placeholders for the offset and
length arrays, recording where each placeholder began. -/
def headerSaverInit (o : OStream) (h : Header) : OStream × HeaderSaver :=
  let r1 := StreamSink.write o (headerFront h)
  let offsetsPos := StreamSink.position r1.1
  let r2 := StreamSink.write r1.1 mipZeros
  let lengthsPos := StreamSink.position r2.1
  let r3 := StreamSink.write r2.1 mipZeros
  (r3.1, ⟨offsetsPos, lengthsPos⟩)

/-- Modelled from the spec: `HeaderSaver::finish()` patches the recorded
placeholder fields via `Sink::overwrite` with the values now held in the
referenced header, leaving the append cursor where it was. -/
def HeaderSaver.finish (sv : HeaderSaver) (h : Header) (o : OStream) : OStream :=
  let r1 := StreamSink.overwrite o sv.offsetsPos (leList 4 h.mipmapOffsets)
  let r2 := StreamSink.overwrite r1.1 sv.lengthsPos (leList 4 h.mipmapLengths)
  r2.1

/-- The save sequence of the round-trip property, as performed by the texture
tool: construct the saver (which writes the placeholder header), append the
payload, then `finish()` patching the offset/length fields out of `h`. -/
def save (h : Header) (payload : List Nat) : OStream :=
  let o0 : OStream := ⟨[], 0, none, false⟩
  let r := headerSaverInit o0 h
  let o2 := (StreamSink.write r.1 payload).1
  HeaderSaver.finish r.2 h o2

theorem OStream_write_app' (d bytes : List Nat) (p : Nat) (hp : p = d.length) :
    OStream.write ⟨d, p, none, false⟩ bytes = ⟨d ++ bytes, p + bytes.length, none, false⟩ := by
  subst hp
  exact OStream_write_app d bytes

theorem StreamSink_overwrite_patch' (X Y Z bytes : List Nat) (p q : Nat)
    (hq : q = X.length) (hlen : Y.length = bytes.length) :
    StreamSink.overwrite ⟨X ++ Y ++ Z, p, none, false⟩ q bytes =
      (⟨X ++ bytes ++ Z, p, none, false⟩, bytes.length) := by
  subst hq
  exact StreamSink_overwrite_patch X Y Z bytes p hlen

theorem StreamSink_write_app (d bytes : List Nat) (p : Nat) (hp : p = d.length) :
    StreamSink.write ⟨d, p, none, false⟩ bytes =
      (⟨d ++ bytes, p + bytes.length, none, false⟩, bytes.length) := by
  subst hp
  simp [StreamSink.write]

theorem headerSaverInit_spec (h : Header) :
    headerSaverInit ⟨[], 0, none, false⟩ h =
      (⟨headerFront h ++ (mipZeros ++ mipZeros), 140, none, false⟩, ⟨12, 76⟩) := by
  have e1 : StreamSink.write ⟨[], 0, none, false⟩ (headerFront h) =
      (⟨headerFront h, 12, none, false⟩, 12) := by
    simpa using StreamSink_write_app [] (headerFront h) 0 rfl
  have e2 : StreamSink.write ⟨headerFront h, 12, none, false⟩ mipZeros =
      (⟨headerFront h ++ mipZeros, 76, none, false⟩, 64) := by
    simpa using StreamSink_write_app (headerFront h) mipZeros 12 (headerFront_length h).symm
  have e3 : StreamSink.write ⟨headerFront h ++ mipZeros, 76, none, false⟩ mipZeros =
      (⟨headerFront h ++ (mipZeros ++ mipZeros), 140, none, false⟩, 64) := by
    have hl : (76 : Nat) = (headerFront h ++ mipZeros).length := by simp
    have := StreamSink_write_app (headerFront h ++ mipZeros) mipZeros 76 hl
    simpa using this
  simp only [headerSaverInit, e1, e2, e3, StreamSink.position, OStream.tellp]

theorem save_data (h : Header) (payload : List Nat)
    (ho : h.mipmapOffsets.length = fixedMipCount)
    (hl : h.mipmapLengths.length = fixedMipCount) :
    save h payload =
      ⟨headerFront h ++ (leList 4 h.mipmapOffsets ++ (leList 4 h.mipmapLengths ++ payload)),
        140 + payload.length, none, false⟩ := by
  have hoz : mipZeros.length = (leList 4 h.mipmapOffsets).length := by
    simp [ho]
    decide
  have hlz : mipZeros.length = (leList 4 h.mipmapLengths).length := by
    simp [hl]
    decide
  have e4 : StreamSink.write ⟨headerFront h ++ (mipZeros ++ mipZeros), 140, none, false⟩ payload =
      (⟨headerFront h ++ (mipZeros ++ (mipZeros ++ payload)), 140 + payload.length, none, false⟩,
        payload.length) := by
    have hp : (140 : Nat) = (headerFront h ++ (mipZeros ++ mipZeros)).length := by simp
    simpa [List.append_assoc] using
      StreamSink_write_app (headerFront h ++ (mipZeros ++ mipZeros)) payload 140 hp
  have e5 : StreamSink.overwrite
      ⟨headerFront h ++ (mipZeros ++ (mipZeros ++ payload)), 140 + payload.length, none, false⟩
      12 (leList 4 h.mipmapOffsets) =
      (⟨headerFront h ++ (leList 4 h.mipmapOffsets ++ (mipZeros ++ payload)),
        140 + payload.length, none, false⟩, (leList 4 h.mipmapOffsets).length) := by
    simpa [List.append_assoc] using
      StreamSink_overwrite_patch' (headerFront h) mipZeros (mipZeros ++ payload)
        (leList 4 h.mipmapOffsets) (140 + payload.length) 12 (headerFront_length h).symm hoz
  have hq76 : (76 : Nat) = (headerFront h ++ leList 4 h.mipmapOffsets).length := by
    simp [ho]
    decide
  have e6 : StreamSink.overwrite
      ⟨headerFront h ++ (leList 4 h.mipmapOffsets ++ (mipZeros ++ payload)),
        140 + payload.length, none, false⟩
      76 (leList 4 h.mipmapLengths) =
      (⟨headerFront h ++ (leList 4 h.mipmapOffsets ++ (leList 4 h.mipmapLengths ++ payload)),
        140 + payload.length, none, false⟩, (leList 4 h.mipmapLengths).length) := by
    simpa [List.append_assoc] using
      StreamSink_overwrite_patch' (headerFront h ++ leList 4 h.mipmapOffsets) mipZeros payload
        (leList 4 h.mipmapLengths) (140 + payload.length) 76 hq76 hlz
  simp only [save, headerSaverInit_spec, e4, HeaderSaver.finish, e5, e6]

theorem readUInt_append' (w : Nat) (P Q R D : List Nat) (p : Nat)
    (hD : D = P ++ (Q ++ R)) (hp : p = P.length) (hQ : Q.length = w) :
    readUInt w ⟨D, p, true⟩ = (⟨D, p + w, true⟩, some (leDecode Q)) := by
  subst hD
  subst hp
  exact readUInt_append w P Q R hQ

theorem readRange_append' (w n p : Nat) (vs P R D : List Nat)
    (hD : D = P ++ (leList w vs ++ R)) (hp : p = P.length) (hn : n = vs.length) :
    readRange w n ⟨D, p, true⟩ =
      (⟨D, p + w * n, true⟩, some (vs.map (fun v => v % 256 ^ w))) := by
  subst hD
  subst hp
  subst hn
  exact readRange_append w vs P R

theorem loadHeader_append (P : List Nat) (c m wd ht : Nat) (offs lens R : List Nat)
    (ho : offs.length = fixedMipCount) (hl : lens.length = fixedMipCount) :
    loadHeader ⟨P ++ (leBytes 1 c ++ (leBytes 1 m ++ (leBytes 2 wd ++ (leBytes 2 ht ++
        (leList 4 offs ++ (leList 4 lens ++ R)))))), P.length, true⟩ =
      (⟨P ++ (leBytes 1 c ++ (leBytes 1 m ++ (leBytes 2 wd ++ (leBytes 2 ht ++
          (leList 4 offs ++ (leList 4 lens ++ R)))))), P.length + headerFieldsSize, true⟩,
        some ⟨c % 256, m % 256, wd % 256 ^ 2, ht % 256 ^ 2,
          offs.map (fun v => v % 256 ^ 4), lens.map (fun v => v % 256 ^ 4)⟩) := by
  have s1 := readUInt_append' 1 P (leBytes 1 c)
    (leBytes 1 m ++ (leBytes 2 wd ++ (leBytes 2 ht ++ (leList 4 offs ++ (leList 4 lens ++ R)))))
    (P ++ (leBytes 1 c ++ (leBytes 1 m ++ (leBytes 2 wd ++ (leBytes 2 ht ++
      (leList 4 offs ++ (leList 4 lens ++ R))))))) P.length rfl rfl (leBytes_length 1 c)
  have s2 := readUInt_append' 1 (P ++ leBytes 1 c) (leBytes 1 m)
    (leBytes 2 wd ++ (leBytes 2 ht ++ (leList 4 offs ++ (leList 4 lens ++ R))))
    (P ++ (leBytes 1 c ++ (leBytes 1 m ++ (leBytes 2 wd ++ (leBytes 2 ht ++
      (leList 4 offs ++ (leList 4 lens ++ R))))))) (P.length + 1)
    (by simp) (by simp) (leBytes_length 1 m)
  have s3 := readUInt_append' 2 (P ++ leBytes 1 c ++ leBytes 1 m) (leBytes 2 wd)
    (leBytes 2 ht ++ (leList 4 offs ++ (leList 4 lens ++ R)))
    (P ++ (leBytes 1 c ++ (leBytes 1 m ++ (leBytes 2 wd ++ (leBytes 2 ht ++
      (leList 4 offs ++ (leList 4 lens ++ R))))))) (P.length + 1 + 1)
    (by simp) (by simp) (leBytes_length 2 wd)
  have s4 := readUInt_append' 2 (P ++ leBytes 1 c ++ leBytes 1 m ++ leBytes 2 wd) (leBytes 2 ht)
    (leList 4 offs ++ (leList 4 lens ++ R))
    (P ++ (leBytes 1 c ++ (leBytes 1 m ++ (leBytes 2 wd ++ (leBytes 2 ht ++
      (leList 4 offs ++ (leList 4 lens ++ R))))))) (P.length + 1 + 1 + 2)
    (by simp) (by simp) (leBytes_length 2 ht)
  have s5 := readRange_append' 4 fixedMipCount (P.length + 1 + 1 + 2 + 2) offs
    (P ++ leBytes 1 c ++ leBytes 1 m ++ leBytes 2 wd ++ leBytes 2 ht)
    (leList 4 lens ++ R)
    (P ++ (leBytes 1 c ++ (leBytes 1 m ++ (leBytes 2 wd ++ (leBytes 2 ht ++
      (leList 4 offs ++ (leList 4 lens ++ R)))))))
    (by simp) (by simp) ho.symm
  have s6 := readRange_append' 4 fixedMipCount (P.length + 1 + 1 + 2 + 2 + 4 * fixedMipCount) lens
    (P ++ leBytes 1 c ++ leBytes 1 m ++ leBytes 2 wd ++ leBytes 2 ht ++ leList 4 offs)
    R
    (P ++ (leBytes 1 c ++ (leBytes 1 m ++ (leBytes 2 wd ++ (leBytes 2 ht ++
      (leList 4 offs ++ (leList 4 lens ++ R)))))))
    (by simp) (by simp [ho]; omega) hl.symm
  simp only [loadHeader, s1, s2, s3, s4, s5, s6]
  simp only [leDecode_leBytes]
  refine Prod.ext ?_ rfl
  simp only [headerFieldsSize, fixedMipCount]

/-- The decoded value of the `w`-byte little-endian field starting at absolute
byte offset `off` of a stream. -/
def byteField (d : List Nat) (off w : Nat) : Nat :=
  leDecode ((d.drop off).take w)

theorem headerFieldsSize_eq : headerFieldsSize = 134 := rfl

theorem fixedMipCount_pos : 0 < fixedMipCount := by decide

theorem readRange_not_ok' (w n : Nat) (s : ReaderState) (h : s.ok = false) (hn : 0 < n) :
    readRange w n s = (s, none) := by
  have hr := readRange_not_ok w n s h
  exact Prod.ext hr.1 (hr.2 hn)

theorem loadHeader_success_raw (d : List Nat) (p : Nat)
    (hle : p + headerFieldsSize ≤ d.length) :
    loadHeader ⟨d, p, true⟩ =
      (⟨d, p + headerFieldsSize, true⟩,
        some ⟨byteField d p 1, byteField d (p + 1) 1, byteField d (p + 2) 2,
          byteField d (p + 4) 2,
          (List.range fixedMipCount).map (fun i => byteField d (p + 6 + 4 * i) 4),
          (List.range fixedMipCount).map (fun i => byteField d (p + 70 + 4 * i) 4)⟩) := by
  have hle' : p + 134 ≤ d.length := by rw [headerFieldsSize_eq] at hle; omega
  have s1 := readUInt_success_at 1 d p (by omega)
  have s2 := readUInt_success_at 1 d (p + 1) (by omega)
  have s3 := readUInt_success_at 2 d (p + 1 + 1) (by omega)
  have s4 := readUInt_success_at 2 d (p + 1 + 1 + 2) (by omega)
  have s5 := readRange_success_at 4 fixedMipCount d (p + 1 + 1 + 2 + 2)
    (by norm_num [fixedMipCount]; omega)
  have s6 := readRange_success_at 4 fixedMipCount d (p + 1 + 1 + 2 + 2 + 4 * fixedMipCount)
    (by norm_num [fixedMipCount]; omega)
  simp only [loadHeader, s1, s2, s3, s4, s5, s6]
  simp_arith [byteField, headerFieldsSize, fixedMipCount]
  refine ⟨fun a ha => ?_, fun a ha => ?_⟩
  · have hx : p + 4 * a + 6 = p + 6 + 4 * a := by omega
    rw [hx]
  · have hx : p + 4 * a + 70 = p + 70 + 4 * a := by omega
    rw [hx]

theorem loadHeader_fail_raw (d : List Nat) (p : Nat)
    (hlt : d.length < p + headerFieldsSize) :
    (loadHeader ⟨d, p, true⟩).2 = none ∧ (loadHeader ⟨d, p, true⟩).1.ok = false := by
  have hlt' : d.length < p + 134 := by rw [headerFieldsSize_eq] at hlt; omega
  by_cases c1 : p + 1 ≤ d.length
  · have s1 := readUInt_success_at 1 d p c1
    by_cases c2 : p + 1 + 1 ≤ d.length
    · have s2 := readUInt_success_at 1 d (p + 1) c2
      by_cases c3 : p + 1 + 1 + 2 ≤ d.length
      · have s3 := readUInt_success_at 2 d (p + 1 + 1) c3
        by_cases c4 : p + 1 + 1 + 2 + 2 ≤ d.length
        · have s4 := readUInt_success_at 2 d (p + 1 + 1 + 2) c4
          by_cases c5 : p + 1 + 1 + 2 + 2 + 4 * fixedMipCount ≤ d.length
          · have s5 := readRange_success_at 4 fixedMipCount d (p + 1 + 1 + 2 + 2)
              (by norm_num [fixedMipCount] at c5 ⊢; omega)
            have c6 : d.length < (p + 1 + 1 + 2 + 2 + 4 * fixedMipCount) + 4 * fixedMipCount := by
              norm_num [fixedMipCount]
              omega
            have s6 := readRange_fail_at 4 fixedMipCount
              ⟨d, p + 1 + 1 + 2 + 2 + 4 * fixedMipCount, true⟩ rfl fixedMipCount_pos c6
            cases hq : (readRange 4 fixedMipCount
                ⟨d, p + 1 + 1 + 2 + 2 + 4 * fixedMipCount, true⟩).2 with
            | none =>
                simp only [loadHeader, s1, s2, s3, s4, s5]
                simp [hq, s6.1]
            | some vs => rw [hq] at s6; exact absurd s6.2 (by simp)
          · have c5' : d.length < (p + 1 + 1 + 2 + 2) + 4 * fixedMipCount := by omega
            have s5 := readRange_fail_at 4 fixedMipCount
              ⟨d, p + 1 + 1 + 2 + 2, true⟩ rfl fixedMipCount_pos c5'
            cases hq : (readRange 4 fixedMipCount ⟨d, p + 1 + 1 + 2 + 2, true⟩).2 with
            | none =>
                have hko : (readRange 4 fixedMipCount ⟨d, p + 1 + 1 + 2 + 2, true⟩).1.ok = false :=
                  s5.1
                have s6 := readRange_not_ok' 4 fixedMipCount
                  (readRange 4 fixedMipCount ⟨d, p + 1 + 1 + 2 + 2, true⟩).1 hko fixedMipCount_pos
                simp only [loadHeader, s1, s2, s3, s4]
                simp [hq, s6, hko]
            | some vs => rw [hq] at s5; exact absurd s5.2 (by simp)
        · have s4 := readUInt_fail 2 ⟨d, p + 1 + 1 + 2, true⟩ rfl (by simpa using c4)
          have s5 := readRange_not_ok' 4 fixedMipCount ⟨d, p + 1 + 1 + 2, false⟩ rfl
            fixedMipCount_pos
          simp only [loadHeader, s1, s2, s3, s4]
          simp [s5]
      · have s3 := readUInt_fail 2 ⟨d, p + 1 + 1, true⟩ rfl (by simpa using c3)
        have s5 := readRange_not_ok' 4 fixedMipCount ⟨d, p + 1 + 1, false⟩ rfl fixedMipCount_pos
        simp only [loadHeader, s1, s2, s3]
        simp [s5]
    · have s2 := readUInt_fail 1 ⟨d, p + 1, true⟩ rfl (by simpa using c2)
      have s5 := readRange_not_ok' 4 fixedMipCount ⟨d, p + 1, false⟩ rfl fixedMipCount_pos
      simp only [loadHeader, s1, s2]
      simp [s5]
  · have s1 := readUInt_fail 1 ⟨d, p, true⟩ rfl (by simpa using c1)
    have s5 := readRange_not_ok' 4 fixedMipCount ⟨d, p, false⟩ rfl fixedMipCount_pos
    simp only [loadHeader, s1]
    simp [s5]

/-! ## The texture tool's save sequence -/

/-- The per-segment payload phase of the save path: each payload segment is
appended to the sink, recording the absolute offset at which it began (from
`sink.position()`, as in `texture_tool/main.cpp`) and its byte count. -/
def appendSegments (o : OStream) : List (List Nat) → OStream × List (Nat × Nat)
  | [] => (o, [])
  | seg :: rest =>
      let off := StreamSink.position o
      let r := StreamSink.write o seg
      let q := appendSegments r.1 rest
      (q.1, (off, seg.length) :: q.2)

/-- The offset/length records produced for segments laid out consecutively
from absolute position `p`. -/
def segRecs (p : Nat) : List (List Nat) → List (Nat × Nat)
  | [] => []
  | seg :: rest => (p, seg.length) :: segRecs (p + seg.length) rest

/-- Pads a record list with zeros up to the fixed mip count (unused trailing
mip slots hold offset/length 0). -/
def padZeros (xs : List Nat) (n : Nat) : List Nat :=
  xs.take n ++ List.replicate (n - xs.length) 0

/-- The full deferred-patch save sequence for a list of payload segments:
write the placeholder header, append every segment recording its true
placement, store the recorded values in the header's fixed-size arrays, and
`finish()`. -/
def saveWithSegments (h : Header) (segs : List (List Nat)) : OStream :=
  let o0 : OStream := ⟨[], 0, none, false⟩
  let r := headerSaverInit o0 h
  let q := appendSegments r.1 segs
  let h2 : Header := { h with
    mipmapOffsets := padZeros (q.2.map Prod.fst) fixedMipCount,
    mipmapLengths := padZeros (q.2.map Prod.snd) fixedMipCount }
  HeaderSaver.finish r.2 h2 q.1

/-- The true absolute byte position of segment `i` in the stream produced by
`saveWithSegments`: the fixed-size header plus the lengths of the preceding
segments. -/
def segPos (segs : List (List Nat)) (i : Nat) : Nat :=
  headerByteSize + ((segs.take i).map List.length).sum

theorem segRecs_length (segs : List (List Nat)) :
    ∀ p : Nat, (segRecs p segs).length = segs.length := by
  induction segs with
  | nil => intro p; rfl
  | cons seg rest ih => intro p; simp [segRecs, ih]

theorem padZeros_length (xs : List Nat) (n : Nat) (h : xs.length ≤ n) :
    (padZeros xs n).length = n := by
  simp [padZeros, Nat.min_eq_left h]
  omega

theorem appendSegments_spec (segs : List (List Nat)) :
    ∀ (d : List Nat) (p : Nat), p = d.length →
      appendSegments ⟨d, p, none, false⟩ segs =
        (⟨d ++ segs.flatten, p + (segs.map List.length).sum, none, false⟩, segRecs p segs) := by
  induction segs with
  | nil => intro d p hp; simp [appendSegments, segRecs]
  | cons seg rest ih =>
      intro d p hp
      have hw := StreamSink_write_app d seg p hp
      have hrec := ih (d ++ seg) (p + seg.length)
        (by simp [hp])
      simp only [appendSegments, hw, StreamSink.position, OStream.tellp, hrec, segRecs]
      simp [List.append_assoc]
      all_goals omega

theorem finish_spec (h2 : Header) (A P : List Nat) (pos : Nat)
    (hA : A.length = 12)
    (ho : h2.mipmapOffsets.length = fixedMipCount)
    (hl : h2.mipmapLengths.length = fixedMipCount) :
    HeaderSaver.finish ⟨12, 76⟩ h2 ⟨A ++ (mipZeros ++ (mipZeros ++ P)), pos, none, false⟩ =
      ⟨A ++ (leList 4 h2.mipmapOffsets ++ (leList 4 h2.mipmapLengths ++ P)),
        pos, none, false⟩ := by
  have hoz : mipZeros.length = (leList 4 h2.mipmapOffsets).length := by
    simp [ho]
    decide
  have hlz : mipZeros.length = (leList 4 h2.mipmapLengths).length := by
    simp [hl]
    decide
  have e5 : StreamSink.overwrite ⟨A ++ (mipZeros ++ (mipZeros ++ P)), pos, none, false⟩
      12 (leList 4 h2.mipmapOffsets) =
      (⟨A ++ (leList 4 h2.mipmapOffsets ++ (mipZeros ++ P)), pos, none, false⟩,
        (leList 4 h2.mipmapOffsets).length) := by
    simpa [List.append_assoc] using
      StreamSink_overwrite_patch' A mipZeros (mipZeros ++ P)
        (leList 4 h2.mipmapOffsets) pos 12 hA.symm hoz
  have hq76 : (76 : Nat) = (A ++ leList 4 h2.mipmapOffsets).length := by
    simp [hA, ho]
    decide
  have e6 : StreamSink.overwrite
      ⟨A ++ (leList 4 h2.mipmapOffsets ++ (mipZeros ++ P)), pos, none, false⟩
      76 (leList 4 h2.mipmapLengths) =
      (⟨A ++ (leList 4 h2.mipmapOffsets ++ (leList 4 h2.mipmapLengths ++ P)),
        pos, none, false⟩, (leList 4 h2.mipmapLengths).length) := by
    simpa [List.append_assoc] using
      StreamSink_overwrite_patch' (A ++ leList 4 h2.mipmapOffsets) mipZeros P
        (leList 4 h2.mipmapLengths) pos 76 hq76 hlz
  simp only [HeaderSaver.finish, e5, e6]

theorem saveWithSegments_data (h : Header) (segs : List (List Nat))
    (hn : segs.length ≤ fixedMipCount) :
    saveWithSegments h segs =
      ⟨headerFront h ++
          (leList 4 (padZeros ((segRecs 140 segs).map Prod.fst) fixedMipCount) ++
            (leList 4 (padZeros ((segRecs 140 segs).map Prod.snd) fixedMipCount) ++
              segs.flatten)),
        140 + (segs.map List.length).sum, none, false⟩ := by
  have happ := appendSegments_spec segs
    (headerFront h ++ (mipZeros ++ mipZeros)) 140 (by simp)
  have hfst : ((segRecs 140 segs).map Prod.fst).length ≤ fixedMipCount := by
    simp [segRecs_length]
    exact hn
  have hsnd : ((segRecs 140 segs).map Prod.snd).length ≤ fixedMipCount := by
    simp [segRecs_length]
    exact hn
  have hfin := finish_spec
    { h with
      mipmapOffsets := padZeros ((segRecs 140 segs).map Prod.fst) fixedMipCount,
      mipmapLengths := padZeros ((segRecs 140 segs).map Prod.snd) fixedMipCount }
    (headerFront h) (segs.flatten) (140 + (segs.map List.length).sum)
    (headerFront_length h)
    (padZeros_length _ _ hfst)
    (padZeros_length _ _ hsnd)
  simp only [saveWithSegments, headerSaverInit_spec] at *
  rw [show headerFront h ++ (mipZeros ++ mipZeros) ++ segs.flatten =
        headerFront h ++ (mipZeros ++ (mipZeros ++ segs.flatten)) from by
      simp [List.append_assoc]] at happ
  simp only [happ]
  exact hfin

theorem loadHeader_append' (P : List Nat) (c m wd ht : Nat) (offs lens R D : List Nat)
    (p : Nat)
    (hD : D = P ++ (leBytes 1 c ++ (leBytes 1 m ++ (leBytes 2 wd ++ (leBytes 2 ht ++
      (leList 4 offs ++ (leList 4 lens ++ R)))))))
    (hp : p = P.length)
    (ho : offs.length = fixedMipCount) (hl : lens.length = fixedMipCount) :
    loadHeader ⟨D, p, true⟩ =
      (⟨D, p + headerFieldsSize, true⟩,
        some ⟨c % 256, m % 256, wd % 256 ^ 2, ht % 256 ^ 2,
          offs.map (fun v => v % 256 ^ 4), lens.map (fun v => v % 256 ^ 4)⟩) := by
  subst hD
  subst hp
  exact loadHeader_append P c m wd ht offs lens R ho hl

/-! ## Chained Reader sequences over destination slots -/

/-- One operation of a chained Reader sequence: a typed fixed-width read into
a destination slot, or a typed skip. -/
inductive ROp where
  | readOp (w : Nat) (dst : Nat)
  | skipOp (w : Nat)
deriving DecidableEq

/-- A chain state: the Reader (source cursor plus accumulated success flag)
together with the destination slots a chain may store into. -/
structure ChainState where
  rd : ReaderState
  dests : List Nat
deriving DecidableEq

/-- Modelled from the spec: executing one chained operation.  A successful
read stores the decoded value into its destination slot and advances the
cursor; a failed or short-circuited operation leaves the destination's prior
value. -/
def stepOp (s : ChainState) : ROp → ChainState
  | ROp.readOp w dst =>
      match readUInt w s.rd with
      | (r, some v) => ⟨r, s.dests.set dst v⟩
      | (r, none) => ⟨r, s.dests⟩
  | ROp.skipOp w => ⟨skipBytes w s.rd, s.dests⟩

/-- A whole chained Reader expression: the operations executed left to
right. -/
def runChain (s : ChainState) (ops : List ROp) : ChainState :=
  ops.foldl stepOp s

theorem stepOp_not_ok (s : ChainState) (op : ROp) (h : s.rd.ok = false) :
    stepOp s op = s := by
  cases op with
  | readOp w dst => simp [stepOp, readUInt_not_ok w s.rd h]
  | skipOp w => simp [stepOp, skipBytes, readUInt_not_ok w s.rd h]

theorem runChain_not_ok (ops : List ROp) (s : ChainState) (h : s.rd.ok = false) :
    runChain s ops = s := by
  induction ops with
  | nil => rfl
  | cons op rest ih =>
      simp only [runChain, List.foldl_cons, stepOp_not_ok s op h]
      exact ih

/-! ## The BMP parser of the texture tool -/

/-- The `LOWORD` macro of `texture_tool/main.cpp`: the low 16-bit word. -/
def LOWORD (l : Nat) : Nat := l % 65536

/-- The `HIWORD` macro of `texture_tool/main.cpp`: the high 16-bit word of a
32-bit value. -/
def HIWORD (l : Nat) : Nat := (l / 65536) % 65536

/-- The word manipulation the parser applies to the 32-bit width, height and
pixel-offset fields: `HIWORD(v) + ((uint32)LOWORD(v) << 16)`, computed in
32-bit unsigned arithmetic. -/
def wordSwap (v : Nat) : Nat := (HIWORD v + LOWORD v * 65536) % 2 ^ 32

/-- Reinterpretation of a 32-bit unsigned bit pattern as a signed `int32`. -/
def toInt32 (v : Nat) : Int := if v < 2 ^ 31 then (v : Int) else (v : Int) - 2 ^ 32

/-- The pixel loop of `BmpImageParser::Parse`: reads `b`, `g`, `r` bytes per
pixel and appends them in `r`, `g`, `b` order; any failed read makes the whole
parse fail. -/
def readPixels : Nat → ReaderState → List Nat → Option (List Nat)
  | 0, _, acc => some acc
  | n + 1, s, acc =>
      let pb := readUInt 1 s
      let pg := readUInt 1 pb.1
      let pr := readUInt 1 pg.1
      match pb.2, pg.2, pr.2 with
      | some b, some g, some r => readPixels n pr.1 (acc ++ [r, g, b])
      | _, _, _ => none

/-- `mmo::BmpImageParser::Parse` (`texture_tool/main.cpp`), over the modelled
Reader primitives.  Returns the success flag together with the `width`,
`height` and `pixels` output parameters; `pixels0` is the caller's pixel
vector (`main` passes an empty one).  The magic check, the skips, the
pixel-offset check, the word manipulation, the zero-size check, the
bits-per-pixel check and the compression dispatch follow the source line by
line. -/
def bmpParse (data : List Nat) (pixels0 : List Nat) : Bool × Nat × Nat × List Nat :=
  let s0 : ReaderState := ⟨data, 0, true⟩
  let p1 := readUInt 2 s0
  match p1.2 with
  | none => (false, 0, 0, pixels0)
  | some bmpMagic =>
    if bmpMagic ≠ 0x4D42 then (false, 0, 0, pixels0)
    else
      let s2 := skipBytes 2 p1.1
      let s3 := skipBytes 4 s2
      let p4 := readUInt 4 s3
      match p4.2 with
      | none => (false, 0, 0, pixels0)
      | some pixelOffset =>
        if pixelOffset < 54 then (false, 0, 0, pixels0)
        else
          let s5 := skipBytes 4 p4.1
          let p6 := readUInt 4 s5
          let p7 := readUInt 4 p6.1
          match p6.2, p7.2 with
          | some bmWidthRaw, some bmHeightRaw =>
            let bmWidth := wordSwap bmWidthRaw
            let bmHeight := wordSwap bmHeightRaw
            let width := bmWidth % 65536
            let height := (toInt32 bmHeight).natAbs % 65536
            if width = 0 ∨ height = 0 then (false, width, height, pixels0)
            else
              let s8 := skipBytes 4 p7.1
              let p9 := readUInt 2 s8
              match p9.2 with
              | none => (false, width, height, pixels0)
              | some bpp =>
                if bpp ≠ 24 ∧ bpp ≠ 32 then (false, width, height, pixels0)
                else
                  let p10 := readUInt 4 p9.1
                  match p10.2 with
                  | none => (false, width, height, pixels0)
                  | some compression =>
                    let s11 : ReaderState := { p10.1 with pos := wordSwap pixelOffset }
                    if compression = 0 then
                      match readPixels (width * height) s11 pixels0 with
                      | none => (false, width, height, pixels0)
                      | some px => (true, width, height, px)
                    else (true, width, height, pixels0)
          | _, _ => (false, 0, 0, pixels0)

/-! ## The texture tool's conversion path -/

/-- The mip-support probe of the save path: `header.width == (1 << i)` for
some `i < 16`. -/
def isPow2Mip (n : Nat) : Bool := (List.range 16).any (fun i => n = 2 ^ i)

/-- The header the tool initializes before saving: uncompressed, `hasMips`
exactly when width and height are powers of two below `2^16`, zero-filled
offset/length arrays. -/
def toolHeader (width height : Nat) : Header :=
  { compression := 0,
    hasMips := if isPow2Mip width && isPow2Mip height then 1 else 0,
    width := width, height := height,
    mipmapOffsets := List.replicate fixedMipCount 0,
    mipmapLengths := List.replicate fixedMipCount 0 }

/-- The save path of `texture_tool/main.cpp` (lines 288-346): open the target
file directly, construct the `HeaderSaver` (writing the placeholder header),
record `sink.position()` and the pixel byte count into the header's mip-0
slots, append the pixel data, and `finish()`.  `cap` models the capacity of
the underlying medium (`none` = unbounded).  The stream state returned is the
content left at the target path: the tool has no temporary file, renames
nothing, and never removes the file. -/
def texToolSave (width height : Nat) (pixelData : List Nat) (cap : Option Nat) : OStream :=
  let o0 : OStream := ⟨[], 0, cap, false⟩
  let r := headerSaverInit o0 (toolHeader width height)
  let header2 : Header :=
    { toolHeader width height with
      mipmapOffsets := (List.replicate fixedMipCount 0).set 0 (StreamSink.position r.1),
      mipmapLengths := (List.replicate fixedMipCount 0).set 0 pixelData.length }
  let o2 := (StreamSink.write r.1 pixelData).1
  HeaderSaver.finish r.2 header2 o2

theorem OStream_write_cap_fits (d bytes : List Nat) (p c : Nat) (hp : p = d.length)
    (hfit : p + bytes.length ≤ c) :
    OStream.write ⟨d, p, some c, false⟩ bytes =
      ⟨d ++ bytes, p + bytes.length, some c, false⟩ := by
  subst hp
  simp [OStream.write, Nat.not_lt.mpr hfit, writeAt, List.drop_eq_nil_of_le]

theorem StreamSink_write_cap (d bytes : List Nat) (p c : Nat) (hp : p = d.length)
    (hfit : p + bytes.length ≤ c) :
    StreamSink.write ⟨d, p, some c, false⟩ bytes =
      (⟨d ++ bytes, p + bytes.length, some c, false⟩, bytes.length) := by
  simp [StreamSink.write, OStream_write_cap_fits d bytes p c hp hfit]

theorem OStream_write_overflow (o : OStream) (bytes : List Nat) (c : Nat)
    (hcap : o.cap = some c) (hbad : o.bad = false) (hlt : c < o.pos + bytes.length) :
    OStream.write o bytes = { o with bad := true } := by
  simp [OStream.write, hbad, hcap, hlt]

theorem StreamSink_overwrite_bad (o : OStream) (pos : Nat) (src : List Nat)
    (h : o.bad = true) :
    StreamSink.overwrite o pos src = (o, src.length) := by
  simp [StreamSink.overwrite, StreamSink.write, OStream.seekp, OStream.write, OStream.tellp, h]

theorem headerSaverInit_cap140 (h : Header) :
    headerSaverInit ⟨[], 0, some 140, false⟩ h =
      (⟨headerFront h ++ (mipZeros ++ mipZeros), 140, some 140, false⟩, ⟨12, 76⟩) := by
  have e1 : StreamSink.write ⟨[], 0, some 140, false⟩ (headerFront h) =
      (⟨headerFront h, 12, some 140, false⟩, 12) := by
    simpa using StreamSink_write_cap [] (headerFront h) 0 140 rfl (by simp)
  have e2 : StreamSink.write ⟨headerFront h, 12, some 140, false⟩ mipZeros =
      (⟨headerFront h ++ mipZeros, 76, some 140, false⟩, 64) := by
    simpa using StreamSink_write_cap (headerFront h) mipZeros 12 140
      (headerFront_length h).symm (by simp)
  have e3 : StreamSink.write ⟨headerFront h ++ mipZeros, 76, some 140, false⟩ mipZeros =
      (⟨headerFront h ++ (mipZeros ++ mipZeros), 140, some 140, false⟩, 64) := by
    have hl : (76 : Nat) = (headerFront h ++ mipZeros).length := by simp
    have := StreamSink_write_cap (headerFront h ++ mipZeros) mipZeros 76 140 hl (by simp)
    simpa using this
  simp only [headerSaverInit, e1, e2, e3, StreamSink.position, OStream.tellp]

theorem texToolSave_fail (width height : Nat) (pixelData : List Nat)
    (hne : pixelData ≠ []) :
    texToolSave width height pixelData (some 140) =
      ⟨headerFront (toolHeader width height) ++ (mipZeros ++ mipZeros),
        140, some 140, true⟩ := by
  have hpos : 0 < pixelData.length := List.length_pos.mpr hne
  have e4 : OStream.write ⟨headerFront (toolHeader width height) ++ (mipZeros ++ mipZeros),
      140, some 140, false⟩ pixelData =
      ⟨headerFront (toolHeader width height) ++ (mipZeros ++ mipZeros), 140, some 140, true⟩ := by
    have := OStream_write_overflow
      ⟨headerFront (toolHeader width height) ++ (mipZeros ++ mipZeros), 140, some 140, false⟩
      pixelData 140 rfl rfl (by simpa using hpos)
    simpa using this
  have e5 := StreamSink_overwrite_bad
    ⟨headerFront (toolHeader width height) ++ (mipZeros ++ mipZeros), 140, some 140, true⟩
  simp only [texToolSave, headerSaverInit_cap140, StreamSink.write, e4,
    HeaderSaver.finish, StreamSink.position, OStream.tellp]
  simp [e5]

theorem drop_append_left (A B : List Nat) (k : Nat) :
    (A ++ B).drop (A.length + k) = B.drop k := by
  rw [← List.drop_drop, List.drop_left]

theorem map_mod_id (xs : List Nat) (hb : ∀ v ∈ xs, v < 256 ^ 4) :
    xs.map (fun v => v % 256 ^ 4) = xs := by
  induction xs with
  | nil => rfl
  | cons x rest ih =>
      simp only [List.map_cons, List.cons.injEq]
      constructor
      · exact Nat.mod_eq_of_lt (hb x (by simp))
      · exact ih (fun v hv => hb v (by simp [hv]))

theorem segRecs_get (segs : List (List Nat)) :
    ∀ (p i : Nat), i < segs.length →
      (segRecs p segs)[i]? =
        some (p + ((segs.take i).map List.length).sum, (segs.getD i []).length) := by
  induction segs with
  | nil => intro p i h; simp at h
  | cons seg rest ih =>
      intro p i h
      cases i with
      | zero => simp [segRecs]
      | succ j =>
          have hj : j < rest.length := by simpa using h
          have := ih (p + seg.length) j hj
          simp only [segRecs, List.getElem?_cons_succ, this, List.take_succ_cons,
            List.map_cons, List.sum_cons, List.getD_cons_succ]
          refine congrArg some (Prod.ext ?_ rfl)
          simp
          omega

theorem padZeros_get (xs : List Nat) (n i : Nat) (hi : i < xs.length) (hn : xs.length ≤ n) :
    (padZeros xs n)[i]? = xs[i]? := by
  have h1 : i < (xs.take n).length := by
    simp [List.length_take]
    omega
  simp only [padZeros, List.getElem?_append, h1, if_pos]
  simp [List.getElem?_take, Nat.lt_of_lt_of_le hi hn]

theorem flatten_drop_sum (segs : List (List Nat)) :
    ∀ i, i < segs.length →
      segs.flatten.drop (((segs.take i).map List.length).sum) = (segs.drop i).flatten := by
  induction segs with
  | nil => intro i h; simp at h
  | cons seg rest ih =>
      intro i hi
      cases i with
      | zero => simp
      | succ j =>
          have hj : j < rest.length := by simpa using hi
          simp only [List.take_succ_cons, List.map_cons, List.sum_cons, List.flatten_cons,
            List.drop_succ_cons]
          rw [drop_append_left seg rest.flatten (((rest.take j).map List.length).sum)]
          exact ih j hj

theorem saveWithSegments_loaded (h : Header) (segs : List (List Nat)) (i : Nat)
    (hn : segs.length ≤ fixedMipCount) (hi : i < segs.length)
    (hb : headerByteSize + (segs.map List.length).sum < 2 ^ 32) :
    ((loadHeader ⟨(saveWithSegments h segs).data, 6, true⟩).2.map
        (fun hdr => (hdr.mipmapOffsets[i]?, hdr.mipmapLengths[i]?)) =
      some (some (segPos segs i), some (segs.getD i []).length)) ∧
    (((saveWithSegments h segs).data.drop (segPos segs i)).take (segs.getD i []).length =
      segs.getD i []) := by
  have hreclO : ((segRecs 140 segs).map Prod.fst).length = segs.length := by
    simp [segRecs_length]
  have hreclL : ((segRecs 140 segs).map Prod.snd).length = segs.length := by
    simp [segRecs_length]
  have hOlen : (padZeros ((segRecs 140 segs).map Prod.fst) fixedMipCount).length =
      fixedMipCount :=
    padZeros_length _ _ (by rw [hreclO]; exact hn)
  have hLlen : (padZeros ((segRecs 140 segs).map Prod.snd) fixedMipCount).length =
      fixedMipCount :=
    padZeros_length _ _ (by rw [hreclL]; exact hn)
  have hb' : 140 + (segs.map List.length).sum < 256 ^ 4 := by
    norm_num [headerByteSize, headerFieldsSize, fixedMipCount] at hb ⊢
    omega
  have hsumT : ((segs.take i).map List.length).sum ≤ (segs.map List.length).sum := by
    have hsplit := List.sum_take_add_sum_drop (segs.map List.length) i
    rw [← List.map_take] at hsplit
    omega
  have hgetD : segs.getD i [] = segs[i] := by
    simp [List.getD_eq_getElem?_getD, List.getElem?_eq_getElem hi]
  have hmem : (segs.getD i []).length ∈ segs.map List.length := by
    rw [hgetD]
    exact List.mem_map_of_mem List.length (List.getElem_mem hi)
  have hlen_le := List.single_le_sum (fun x _ => Nat.zero_le x) _ hmem
  have hload := loadHeader_append' (texMagic ++ leBytes 4 Version_1_0)
    h.compression h.hasMips h.width h.height
    (padZeros ((segRecs 140 segs).map Prod.fst) fixedMipCount)
    (padZeros ((segRecs 140 segs).map Prod.snd) fixedMipCount)
    segs.flatten
    (headerFront h ++
      (leList 4 (padZeros ((segRecs 140 segs).map Prod.fst) fixedMipCount) ++
        (leList 4 (padZeros ((segRecs 140 segs).map Prod.snd) fixedMipCount) ++
          segs.flatten)))
    6
    (by simp [headerFront, List.append_assoc]) (by decide) hOlen hLlen
  have hOi : ((padZeros ((segRecs 140 segs).map Prod.fst) fixedMipCount).map
      (fun v => v % 256 ^ 4))[i]? = some (segPos segs i) := by
    rw [List.getElem?_map]
    rw [padZeros_get _ _ i (by rw [hreclO]; exact hi) (by rw [hreclO]; exact hn)]
    rw [List.getElem?_map]
    rw [segRecs_get segs 140 i hi]
    show some ((140 + ((segs.take i).map List.length).sum) % 256 ^ 4) = some (segPos segs i)
    refine congrArg some ?_
    rw [Nat.mod_eq_of_lt (by omega)]
    rw [segPos, show headerByteSize = 140 from rfl]
  have hLi : ((padZeros ((segRecs 140 segs).map Prod.snd) fixedMipCount).map
      (fun v => v % 256 ^ 4))[i]? = some (segs.getD i []).length := by
    rw [List.getElem?_map]
    rw [padZeros_get _ _ i (by rw [hreclL]; exact hi) (by rw [hreclL]; exact hn)]
    rw [List.getElem?_map]
    rw [segRecs_get segs 140 i hi]
    show some ((segs.getD i []).length % 256 ^ 4) = some (segs.getD i []).length
    refine congrArg some ?_
    exact Nat.mod_eq_of_lt (by omega)
  constructor
  · simp only [saveWithSegments_data h segs hn]
    rw [hload]
    show some (((padZeros ((segRecs 140 segs).map Prod.fst) fixedMipCount).map
          (fun v => v % 256 ^ 4))[i]?,
        ((padZeros ((segRecs 140 segs).map Prod.snd) fixedMipCount).map
          (fun v => v % 256 ^ 4))[i]?) =
      some (some (segPos segs i), some (segs.getD i []).length)
    rw [hOi, hLi]
  · simp only [saveWithSegments_data h segs hn]
    have hD' : headerFront h ++
        (leList 4 (padZeros ((segRecs 140 segs).map Prod.fst) fixedMipCount) ++
          (leList 4 (padZeros ((segRecs 140 segs).map Prod.snd) fixedMipCount) ++
            segs.flatten)) =
        (headerFront h ++ leList 4 (padZeros ((segRecs 140 segs).map Prod.fst) fixedMipCount) ++
          leList 4 (padZeros ((segRecs 140 segs).map Prod.snd) fixedMipCount)) ++
          segs.flatten := by
      simp [List.append_assoc]
    have hplen : (headerFront h ++
        leList 4 (padZeros ((segRecs 140 segs).map Prod.fst) fixedMipCount) ++
        leList 4 (padZeros ((segRecs 140 segs).map Prod.snd) fixedMipCount)).length = 140 := by
      rw [List.length_append, List.length_append, headerFront_length, leList_length,
        leList_length, hOlen, hLlen]
      decide
    simp only [hD', segPos, show headerByteSize = 140 from rfl]
    rw [show (140 : Nat) + ((segs.take i).map List.length).sum =
        (headerFront h ++
          leList 4 (padZeros ((segRecs 140 segs).map Prod.fst) fixedMipCount) ++
          leList 4 (padZeros ((segRecs 140 segs).map Prod.snd) fixedMipCount)).length +
          ((segs.take i).map List.length).sum from by rw [hplen]]
    rw [drop_append_left]
    rw [flatten_drop_sum segs i hi]
    rw [List.drop_eq_getElem_cons hi, hgetD, List.flatten_cons]
    exact List.take_left' rfl

/-! ## Claim theorems -/

/-- **C2**  Round-trip: for every Header with valid (in-range) compression,
hasMips, width and height fields and fixed-length in-range mip offset/length
arrays, performing the save sequence (HeaderSaver with placeholder fields,
payload write, `finish()`) and then decoding the produced byte stream with
`loadHeader` (positioned after the 6-byte pre-header) yields a Header equal
to the original in every field. -/
theorem save_load_roundtrip (h : Header) (payload : List Nat)
    (hc : h.compression < 256) (hm : h.hasMips < 256)
    (hw : h.width < 65536) (hh : h.height < 65536)
    (ho : h.mipmapOffsets.length = fixedMipCount)
    (hl : h.mipmapLengths.length = fixedMipCount)
    (hob : ∀ v ∈ h.mipmapOffsets, v < 2 ^ 32)
    (hlb : ∀ v ∈ h.mipmapLengths, v < 2 ^ 32) :
    (loadHeader ⟨(save h payload).data, 6, true⟩).2 = some h := by
  obtain ⟨c, m, wd, ht, offs, lens⟩ := h
  simp only at hc hm hw hh ho hl hob hlb
  rw [save_data ⟨c, m, wd, ht, offs, lens⟩ payload ho hl]
  rw [loadHeader_append' (texMagic ++ leBytes 4 Version_1_0) c m wd ht offs lens payload _ 6
    (by simp [headerFront, List.append_assoc]) (by decide) ho hl]
  simp only [Option.some.injEq, Header.mk.injEq]
  refine ⟨Nat.mod_eq_of_lt hc, Nat.mod_eq_of_lt hm, ?_, ?_, ?_, ?_⟩
  · exact Nat.mod_eq_of_lt (by simpa using hw)
  · exact Nat.mod_eq_of_lt (by simpa using hh)
  · exact map_mod_id offs (fun v hv => by simpa using hob v hv)
  · exact map_mod_id lens (fun v hv => by simpa using hlb v hv)

/-- Witness for C2: a concrete header and payload round-trip. -/
theorem save_load_roundtrip_witness :
    (loadHeader ⟨(save ⟨1, 1, 256, 256, List.replicate 16 0, List.replicate 16 0⟩
        [1, 2, 3]).data, 6, true⟩).2 =
      some ⟨1, 1, 256, 256, List.replicate 16 0, List.replicate 16 0⟩ :=
  save_load_roundtrip ⟨1, 1, 256, 256, List.replicate 16 0, List.replicate 16 0⟩ [1, 2, 3]
    (by decide) (by decide) (by decide) (by decide) (by decide) (by decide)
    (by decide) (by decide)

/-- The single payload segment of the concrete 256x256 scenario:
196608 = 256*256*3 bytes. -/
def mip0Payload : List Nat := List.replicate 196608 0

theorem mip0Payload_length : mip0Payload.length = 196608 := by
  unfold mip0Payload
  rw [List.length_replicate]

/-- **C1**  Deferred-patch save correctness: for every header and sequence of
payload segments (at most `fixedMipCount` of them, total size within 32
bits), writing the placeholder header, appending the segments, and calling
`finish()` yields a stream in which the decoded `mipmapOffsets[i]` and
`mipmapLengths[i]` equal the actual absolute byte position and byte count of
segment `i` — the segment's bytes are literally found at that offset.  In
particular, saving a 256x256 uncompressed image as one 196608-byte segment
yields `mipmapOffsets[0]` equal to the first byte after the fixed-size
header (`headerByteSize` = 140) and `mipmapLengths[0]` = 196608. -/
theorem deferred_patch_save_correct (h : Header) (segs : List (List Nat)) (i : Nat)
    (hn : segs.length ≤ fixedMipCount) (hi : i < segs.length)
    (hb : headerByteSize + (segs.map List.length).sum < 2 ^ 32) :
    ((loadHeader ⟨(saveWithSegments h segs).data, 6, true⟩).2.map
        (fun hdr => (hdr.mipmapOffsets[i]?, hdr.mipmapLengths[i]?)) =
      some (some (segPos segs i), some (segs.getD i []).length)) ∧
    (((saveWithSegments h segs).data.drop (segPos segs i)).take (segs.getD i []).length =
      segs.getD i []) ∧
    ((loadHeader ⟨(saveWithSegments (toolHeader 256 256)
          [mip0Payload]).data, 6, true⟩).2.map
        (fun hdr => (hdr.mipmapOffsets[0]?, hdr.mipmapLengths[0]?)) =
      some (some headerByteSize, some 196608)) := by
  refine ⟨(saveWithSegments_loaded h segs i hn hi hb).1,
    (saveWithSegments_loaded h segs i hn hi hb).2, ?_⟩
  have hc := (saveWithSegments_loaded (toolHeader 256 256) [mip0Payload] 0
    (by decide) (by decide)
    (by rw [List.map_cons, List.map_nil, mip0Payload_length]; decide)).1
  have e1 : segPos [mip0Payload] 0 = headerByteSize := rfl
  have e2 : ([mip0Payload].getD 0 []).length = 196608 := by
    rw [show [mip0Payload].getD 0 [] = mip0Payload from rfl, mip0Payload_length]
  rw [e1, e2] at hc
  exact hc

/-- Witness for C1: two concrete segments, checked at index 1. -/
theorem deferred_patch_save_correct_witness :
    ((loadHeader ⟨(saveWithSegments (toolHeader 8 8) [[9, 8, 7], [6, 5]]).data, 6, true⟩).2.map
        (fun hdr => (hdr.mipmapOffsets[1]?, hdr.mipmapLengths[1]?)) =
      some (some (segPos [[9, 8, 7], [6, 5]] 1), some ([[9, 8, 7], [6, 5]].getD 1 []).length)) ∧
    (((saveWithSegments (toolHeader 8 8) [[9, 8, 7], [6, 5]]).data.drop
        (segPos [[9, 8, 7], [6, 5]] 1)).take ([[9, 8, 7], [6, 5]].getD 1 []).length =
      [[9, 8, 7], [6, 5]].getD 1 []) ∧
    ((loadHeader ⟨(saveWithSegments (toolHeader 256 256)
          [mip0Payload]).data, 6, true⟩).2.map
        (fun hdr => (hdr.mipmapOffsets[0]?, hdr.mipmapLengths[0]?)) =
      some (some headerByteSize, some 196608)) :=
  deferred_patch_save_correct (toolHeader 8 8) [[9, 8, 7], [6, 5]] 1
    (by decide) (by decide) (by decide)

/-- **C3**  Reader chain short-circuit: if a prefix of a chained Reader
sequence has failed (operation j was the first to fail), then running the
chain extended by any further operations produces exactly the same state —
no destination slot is mutated and the Source cursor does not advance beyond
where the failing operation left it — and the overall chain reports
failure. -/
theorem reader_chain_short_circuit (ops1 ops2 : List ROp) (s : ChainState)
    (hfail : (runChain s ops1).rd.ok = false) :
    runChain s (ops1 ++ ops2) = runChain s ops1 ∧
    (runChain s (ops1 ++ ops2)).rd.ok = false := by
  have happ : runChain s (ops1 ++ ops2) = runChain (runChain s ops1) ops2 := by
    simp [runChain, List.foldl_append]
  rw [happ, runChain_not_ok ops2 (runChain s ops1) hfail]
  exact ⟨rfl, hfail⟩

/-- Witness for C3: a 4-byte read over a 1-byte source fails; the following
read and skip are no-ops. -/
theorem reader_chain_short_circuit_witness :
    runChain ⟨⟨[7], 0, true⟩, [3, 4]⟩ ([ROp.readOp 4 0] ++ [ROp.readOp 1 1, ROp.skipOp 2]) =
      runChain ⟨⟨[7], 0, true⟩, [3, 4]⟩ [ROp.readOp 4 0] ∧
    (runChain ⟨⟨[7], 0, true⟩, [3, 4]⟩
      ([ROp.readOp 4 0] ++ [ROp.readOp 1 1, ROp.skipOp 2])).rd.ok = false :=
  reader_chain_short_circuit [ROp.readOp 4 0] [ROp.readOp 1 1, ROp.skipOp 2]
    ⟨⟨[7], 0, true⟩, [3, 4]⟩ (by decide)

/-- **C4**  Overwrite preserves the append cursor: on a healthy sink over an
unbounded medium, `StreamSink::overwrite` returns with `position()` equal to
its pre-call value (the saved `tellp` is restored), while `write` advances
the append cursor by exactly the byte count written. -/
theorem overwrite_preserves_append_cursor (o : OStream) (p : Nat) (bytes : List Nat)
    (hbad : o.bad = false) (hcap : o.cap = none) :
    StreamSink.position (StreamSink.overwrite o p bytes).1 = StreamSink.position o ∧
    StreamSink.position (StreamSink.write o bytes).1 =
      StreamSink.position o + bytes.length := by
  obtain ⟨d, q, cap, bad⟩ := o
  simp only at hbad hcap
  subst hbad
  subst hcap
  constructor
  · simp [StreamSink.overwrite, StreamSink.write, OStream.seekp, OStream.write,
      OStream.tellp, StreamSink.position]
  · simp [StreamSink.write, OStream.write, StreamSink.position, OStream.tellp]

/-- Witness for C4 at a concrete sink. -/
theorem overwrite_preserves_append_cursor_witness :
    StreamSink.position (StreamSink.overwrite ⟨[1, 2, 3], 3, none, false⟩ 1 [9]).1 =
      StreamSink.position ⟨[1, 2, 3], 3, none, false⟩ ∧
    StreamSink.position (StreamSink.write ⟨[1, 2, 3], 3, none, false⟩ [9]).1 =
      StreamSink.position ⟨[1, 2, 3], 3, none, false⟩ + [9].length :=
  overwrite_preserves_append_cursor ⟨[1, 2, 3], 3, none, false⟩ 1 [9] rfl rfl

/-- Counterexample to C5 as stated: an `overwrite` targeting position 10 of a
sink whose highest-written position is 2 does not fail and is not surfaced
loudly: it reports the full byte count as written, leaves the stream in a
non-failed state, and silently extends the data with a zero-filled gap. -/
theorem overwrite_beyond_frontier_not_checked :
    (StreamSink.overwrite ⟨[1, 2], 2, none, false⟩ 10 [7]).2 = 1 ∧
    (StreamSink.overwrite ⟨[1, 2], 2, none, false⟩ 10 [7]).1.bad = false ∧
    (StreamSink.overwrite ⟨[1, 2], 2, none, false⟩ 10 [7]).1.data =
      [1, 2, 0, 0, 0, 0, 0, 0, 0, 0, 7] := by decide

/-- **C5 (amended)**  `StreamSink::overwrite` performs no frontier check: on
a healthy unbounded sink, overwriting at any position beyond the
highest-written offset is silently tolerated — the call reports the full
byte count, the stream stays non-failed, and the data is extended with a
zero-filled gap followed by the new bytes. -/
theorem overwrite_beyond_frontier_silent (o : OStream) (p : Nat) (bytes : List Nat)
    (hbad : o.bad = false) (hcap : o.cap = none) (hp : o.data.length < p) :
    (StreamSink.overwrite o p bytes).2 = bytes.length ∧
    (StreamSink.overwrite o p bytes).1.bad = false ∧
    (StreamSink.overwrite o p bytes).1.data =
      o.data ++ List.replicate (p - o.data.length) 0 ++ bytes := by
  obtain ⟨d, q, cap, bad⟩ := o
  simp only at hbad hcap hp
  subst hbad
  subst hcap
  have h1 : d.take p = d := List.take_of_length_le (Nat.le_of_lt hp)
  have h2 : d.drop (p + bytes.length) = [] := List.drop_eq_nil_of_le (by omega)
  simp [StreamSink.overwrite, StreamSink.write, OStream.seekp, OStream.write, writeAt,
    OStream.tellp, h1, h2]

/-- Witness for the amended C5. -/
theorem overwrite_beyond_frontier_silent_witness :
    (StreamSink.overwrite ⟨[5], 1, none, false⟩ 4 [8, 9]).2 = [8, 9].length ∧
    (StreamSink.overwrite ⟨[5], 1, none, false⟩ 4 [8, 9]).1.bad = false ∧
    (StreamSink.overwrite ⟨[5], 1, none, false⟩ 4 [8, 9]).1.data =
      [5] ++ List.replicate (4 - [5].length) 0 ++ [8, 9] :=
  overwrite_beyond_frontier_silent ⟨[5], 1, none, false⟩ 4 [8, 9] rfl rfl (by decide)

/-- **C6**  The code evaluated at the failing input: a `StreamSink` over a
medium that refuses every write (capacity 0) still returns the full byte
count from `write` (the source's `return size; // hack`), although no byte
was written and the underlying stream entered its failed state; the
rejection is invisible in the returned value, so it cannot propagate as a
failed Writer chain. -/
theorem write_failure_reported_as_success :
    (StreamSink.write ⟨[], 0, some 0, false⟩ [9]).2 = 1 ∧
    (StreamSink.write ⟨[], 0, some 0, false⟩ [9]).1.data = [] ∧
    (StreamSink.write ⟨[], 0, some 0, false⟩ [9]).1.bad = true := by decide

/-- **C7**  Versioned header decode order: as one chained Reader expression,
`loadHeader` decodes compression (1 byte at the cursor), hasMips (1 byte at
cursor+1), width (2 bytes at cursor+2), height (2 bytes at cursor+4), then
the fixed-length mipmap offset range (cursor+6) and the fixed-length mipmap
length range (cursor+70), in exactly that order; it reports failure exactly
when a step of the chain fails, i.e. when fewer than `headerFieldsSize`
bytes remain. -/
theorem loadHeader_decode_order (d : List Nat) (p : Nat) :
    (p + headerFieldsSize ≤ d.length →
      loadHeader ⟨d, p, true⟩ =
        (⟨d, p + headerFieldsSize, true⟩,
          some ⟨byteField d p 1, byteField d (p + 1) 1, byteField d (p + 2) 2,
            byteField d (p + 4) 2,
            (List.range fixedMipCount).map (fun i => byteField d (p + 6 + 4 * i) 4),
            (List.range fixedMipCount).map (fun i => byteField d (p + 70 + 4 * i) 4)⟩)) ∧
    (d.length < p + headerFieldsSize →
      (loadHeader ⟨d, p, true⟩).2 = none ∧ (loadHeader ⟨d, p, true⟩).1.ok = false) :=
  ⟨loadHeader_success_raw d p, loadHeader_fail_raw d p⟩

set_option maxRecDepth 100000 in
/-- Witness for C7 on a concrete 140-byte stream. -/
theorem loadHeader_decode_order_witness :
    loadHeader ⟨List.replicate 140 0, 6, true⟩ =
      (⟨List.replicate 140 0, 6 + headerFieldsSize, true⟩,
        some ⟨byteField (List.replicate 140 0) 6 1, byteField (List.replicate 140 0) (6 + 1) 1,
          byteField (List.replicate 140 0) (6 + 2) 2, byteField (List.replicate 140 0) (6 + 4) 2,
          (List.range fixedMipCount).map
            (fun i => byteField (List.replicate 140 0) (6 + 6 + 4 * i) 4),
          (List.range fixedMipCount).map
            (fun i => byteField (List.replicate 140 0) (6 + 70 + 4 * i) 4)⟩) :=
  (loadHeader_decode_order (List.replicate 140 0) 6).1 (by decide)

set_option maxRecDepth 100000 in
/-- Counterexample to C8 as stated: with a medium that fails during the
payload write (capacity exactly one fixed-size header), the tool's save path
leaves, at the target path it opened directly, a file that still parses as a
valid v1.0 header (width 4, height 4) whose `mipmapOffsets[0]` and
`mipmapLengths[0]` hold the placeholder value 0 — a valid-looking file with
missing payload offsets, with no temporary file, finalize step or cleanup. -/
theorem tool_save_leaves_corrupt_file :
    (texToolSave 4 4 (List.replicate 48 7) (some 140)).bad = true ∧
    ((loadHeader ⟨(texToolSave 4 4 (List.replicate 48 7) (some 140)).data, 6, true⟩).2.map
        (fun hdr => (hdr.width, hdr.mipmapOffsets[0]?, hdr.mipmapLengths[0]?)) =
      some (4, some 0, some 0)) := by decide

/-- **C8 (amended)**  The tool writes directly to the final target path with
no temporary file and no finalize/rename step: whenever the medium fails
during the payload write, the bytes left at the target path are exactly the
140-byte placeholder header, which still parses as a valid v1.0 header of
the requested size with `mipmapOffsets[0] = 0` and `mipmapLengths[0] = 0`. -/
theorem tool_save_not_atomic (width height : Nat) (pixelData : List Nat)
    (hw : width < 65536) (hh : height < 65536) (hne : pixelData ≠ []) :
    (texToolSave width height pixelData (some 140)).bad = true ∧
    (texToolSave width height pixelData (some 140)).data.length = headerByteSize ∧
    ((loadHeader ⟨(texToolSave width height pixelData (some 140)).data, 6, true⟩).2.map
        (fun hdr => (hdr.width, hdr.height, hdr.mipmapOffsets[0]?, hdr.mipmapLengths[0]?)) =
      some (width, height, some 0, some 0)) := by
  have hts := texToolSave_fail width height pixelData hne
  have hmz : mipZeros = leList 4 (List.replicate fixedMipCount 0) := by decide
  rw [hts]
  refine ⟨rfl, ?_, ?_⟩
  · show (headerFront (toolHeader width height) ++ (mipZeros ++ mipZeros)).length =
      headerByteSize
    rw [List.length_append, List.length_append, headerFront_length, mipZeros_length]
    decide
  · have hload := loadHeader_append' (texMagic ++ leBytes 4 Version_1_0)
      (toolHeader width height).compression (toolHeader width height).hasMips
      (toolHeader width height).width (toolHeader width height).height
      (List.replicate fixedMipCount 0) (List.replicate fixedMipCount 0) []
      (headerFront (toolHeader width height) ++ (mipZeros ++ mipZeros)) 6
      (by rw [hmz]; simp [headerFront, List.append_assoc]) (by decide)
      (by decide) (by decide)
    rw [hload]
    show some ((toolHeader width height).width % 256 ^ 2,
        (toolHeader width height).height % 256 ^ 2,
        ((List.replicate fixedMipCount 0).map (fun v => v % 256 ^ 4))[0]?,
        ((List.replicate fixedMipCount 0).map (fun v => v % 256 ^ 4))[0]?) =
      some (width, height, some 0, some 0)
    rw [show (toolHeader width height).width = width from rfl,
      show (toolHeader width height).height = height from rfl]
    rw [Nat.mod_eq_of_lt (by simpa using hw), Nat.mod_eq_of_lt (by simpa using hh)]
    rw [show ((List.replicate fixedMipCount 0).map (fun v => v % 256 ^ 4))[0]? =
      some 0 from by decide]

/-- Witness for the amended C8. -/
theorem tool_save_not_atomic_witness :
    (texToolSave 8 16 [3] (some 140)).bad = true ∧
    (texToolSave 8 16 [3] (some 140)).data.length = headerByteSize ∧
    ((loadHeader ⟨(texToolSave 8 16 [3] (some 140)).data, 6, true⟩).2.map
        (fun hdr => (hdr.width, hdr.height, hdr.mipmapOffsets[0]?, hdr.mipmapLengths[0]?)) =
      some (8, 16, some 0, some 0)) :=
  tool_save_not_atomic 8 16 [3] (by decide) (by decide) (by decide)

/-- A BMP header whose stored 32-bit width and height are 256 (a normal
256x256 image): magic "BM", pixel offset 54, width bytes `[0,1,0,0]`,
height bytes `[0,1,0,0]`. -/
def bmp256 : List Nat :=
  [66, 77, 0, 0, 0, 0, 0, 0, 54, 0, 0, 0, 0, 0, 0, 0, 0, 1, 0, 0, 0, 1, 0, 0]

/-- Counterexample to C9 as stated: for `v = 256 < 2^16` the transformed
value is `256 * 2^16`, whose 16-bit truncation (the parser's subsequent use
for the width) is 0 rather than 256 — and concretely the parser rejects a
BMP whose stored width and height are 256, because the transformed width
truncates to 0. -/
theorem word_swap_not_neutral_at_256 :
    wordSwap 256 = 16777216 ∧ wordSwap 256 % 65536 = 0 ∧ (256 : Nat) % 65536 = 256 ∧
    (bmpParse bmp256 []).1 = false := by decide

/-- **C9 (amended)**  The word manipulation matters precisely when the high
and low 16-bit words differ: for every 32-bit `v`, the transformed value's
16-bit truncation (the parser's subsequent use) is `HIWORD v` — which for
`v < 2^16` is 0, not `v` — and the transform leaves `v` unchanged exactly
when `HIWORD v = LOWORD v`. -/
theorem word_swap_semantics (v : Nat) (hv : v < 2 ^ 32) :
    wordSwap v % 65536 = HIWORD v ∧ (wordSwap v = v ↔ HIWORD v = LOWORD v) := by
  have hlow : LOWORD v < 65536 := Nat.mod_lt _ (by norm_num)
  have hhi : HIWORD v < 65536 := Nat.mod_lt _ (by norm_num)
  have hmul : LOWORD v * 65536 ≤ 65535 * 65536 := Nat.mul_le_mul_right 65536 (by omega)
  have hsum : HIWORD v + LOWORD v * 65536 < 2 ^ 32 := by norm_num at *; omega
  have hws : wordSwap v = HIWORD v + LOWORD v * 65536 := by
    rw [wordSwap]
    exact Nat.mod_eq_of_lt hsum
  have hdiv : v / 65536 < 65536 := Nat.div_lt_of_lt_mul (by norm_num at hv ⊢; omega)
  have hdecomp : v = LOWORD v + HIWORD v * 65536 := by
    rw [LOWORD, HIWORD, Nat.mod_eq_of_lt hdiv]
    have := Nat.mod_add_div' v 65536
    omega
  rw [hws]
  constructor
  · omega
  · omega

/-- Witness for the amended C9 at `v = 256`. -/
theorem word_swap_semantics_witness :
    wordSwap 256 % 65536 = HIWORD 256 ∧ (wordSwap 256 = 256 ↔ HIWORD 256 = LOWORD 256) :=
  word_swap_semantics 256 (by decide)

/-- **C10**  For every input stream that passes all of the parser's header
checks (magic, pixel offset, nonzero post-transform width and height, 24- or
32-bit depth) and whose compression field is non-zero,
`BmpImageParser::Parse` returns success while leaving the output pixel
vector empty as passed in by `main`: pixel data is read and converted only
when compression = 0, and a non-zero compression value is not reported as a
failure. -/
theorem bmp_nonzero_compression_empty_pixels (data : List Nat)
    (hlen : 34 ≤ data.length)
    (hmagic : byteField data 0 2 = 0x4D42)
    (hpo : 54 ≤ byteField data 8 4)
    (hw : wordSwap (byteField data 16 4) % 65536 ≠ 0)
    (hh : (toInt32 (wordSwap (byteField data 20 4))).natAbs % 65536 ≠ 0)
    (hbpp : byteField data 28 2 = 24 ∨ byteField data 28 2 = 32)
    (hcomp : byteField data 30 4 ≠ 0) :
    bmpParse data [] =
      (true, wordSwap (byteField data 16 4) % 65536,
        (toInt32 (wordSwap (byteField data 20 4))).natAbs % 65536, []) := by
  simp only [byteField] at hmagic hpo hw hh hbpp hcomp
  have s1 := readUInt_success_at 2 data 0 (by omega)
  have s2 := readUInt_success_at 2 data (0 + 2) (by omega)
  have s3 := readUInt_success_at 4 data (0 + 2 + 2) (by omega)
  have s4 := readUInt_success_at 4 data (0 + 2 + 2 + 4) (by omega)
  have s5 := readUInt_success_at 4 data (0 + 2 + 2 + 4 + 4) (by omega)
  have s6 := readUInt_success_at 4 data (0 + 2 + 2 + 4 + 4 + 4) (by omega)
  have s7 := readUInt_success_at 4 data (0 + 2 + 2 + 4 + 4 + 4 + 4) (by omega)
  have s8 := readUInt_success_at 4 data (0 + 2 + 2 + 4 + 4 + 4 + 4 + 4) (by omega)
  have s9 := readUInt_success_at 2 data (0 + 2 + 2 + 4 + 4 + 4 + 4 + 4 + 4) (by omega)
  have s10 := readUInt_success_at 4 data (0 + 2 + 2 + 4 + 4 + 4 + 4 + 4 + 4 + 2) (by omega)
  simp only [bmpParse, skipBytes, s1, s2, s3, s4, s5, s6, s7, s8, s9, s10, byteField]
  norm_num
  have hmagic' : leDecode (data.take 2) = 0x4D42 := by simpa using hmagic
  rcases hbpp with hbpp | hbpp <;>
    simp [hmagic', Nat.not_lt.mpr hpo, hw, hh, hbpp, hcomp]

/-- A well-formed 24-bit BMP header whose compression field is 1 (non-zero);
its stored width and height are 65536 so that the parser's word manipulation
turns them into the nonzero dimension 1. -/
def bmpNoComp : List Nat :=
  [66, 77, 0, 0, 0, 0, 0, 0, 54, 0, 0, 0, 0, 0, 0, 0,
   0, 0, 1, 0, 0, 0, 1, 0, 0, 0, 0, 0, 24, 0, 1, 0, 0, 0]

/-- Witness for C10: the concrete compressed BMP parses successfully with an
empty pixel vector. -/
theorem bmp_nonzero_compression_empty_pixels_witness :
    bmpParse bmpNoComp [] =
      (true, wordSwap (byteField bmpNoComp 16 4) % 65536,
        (toInt32 (wordSwap (byteField bmpNoComp 20 4))).natAbs % 65536, []) :=
  bmp_nonzero_compression_empty_pixels bmpNoComp (by decide) (by decide) (by decide)
    (by decide) (by decide) (by decide) (by decide)

end Mmo
